import Mathlib

/-!
Verification of the outcome-aggregation and experiment-configuration logic of
min-qiskit-cpp-example. The repository holds three programs:

* `src/bell_state_c.c` (first part): fixed 2-qubit Bell circuit, C API. Samples
  come back as hex strings; the program parses each with `strtol`, keeps a
  4-entry counts array and prints the four outcome lines with percentages
  divided by the number of samples actually returned.
* `src/bell_state_c.c` (second part): fixed 2-qubit Bell circuit, C++ API.
  Counts come back as a string-keyed map; every entry is printed with a
  percentage divided by the configured shot count.
* `src/ghz_20q.cpp`: N-qubit GHZ circuit. Counts come back as a string-keyed
  map; entries are classified against all-zeros / all-ones reference patterns,
  detail lines are printed above a 1% threshold, and a three-bucket summary is
  always printed, all percentages divided by the configured shot count.

The embedding below translates the argument parsing (via a model of C `atoi`)
and the aggregation/summarisation loops of each program. Percentages, computed
with `double` in the source, are modelled in `ℚ`: for every nonzero shot
count the claims about them concern which numerator and denominator are used,
a threshold comparison, or exact zero, none of which depend on rounding. At
shot count 0 the program's `double` division yields infinity (nonzero count)
or a not-a-number value (count 0) where rational division by zero is 0, so
statements taken at shot count 0 assert only the report's structure and
counts, never its percentage values or its 1% filtering. Machine integers are
modelled as `Nat`/`Int`; the one place where 64-bit width matters
(`1ULL << num_qubits`) is taken modulo `2 ^ 64` explicitly.
-/

/-! ## A model of C `atoi`

The function skips leading whitespace, accepts one optional sign, then
converts the maximal leading run of decimal digits; a string with no such run
converts to 0. Overflow of the `int` result is undefined behaviour in C and is
not modelled; no claim depends on it. -/

/-- Whitespace as C `isspace` in the default locale: space, tab, newline,
vertical tab, form feed, carriage return. -/
def isSpaceChar (c : Char) : Bool :=
  c = ' ' || c = '\t' || c = '\n' || c = '\x0b' || c = '\x0c' || c = '\r'

/-- Drop the leading whitespace run. -/
def dropSpaces : List Char → List Char
  | [] => []
  | c :: cs => if isSpaceChar c then dropSpaces cs else c :: cs

/-- Numeric value of a decimal digit character. -/
def digitVal (c : Char) : Nat := c.toNat - 48

/-- Convert the maximal leading run of decimal digits, most significant
first, starting from an accumulator. -/
def atoiDigits : List Char → Nat → Nat
  | c :: cs, acc => if c.isDigit then atoiDigits cs (acc * 10 + digitVal c) else acc
  | [], acc => acc

/-- Conversion of a whitespace-stripped character list: optional sign, then
the maximal digit run. -/
def atoiList : List Char → Int
  | [] => 0
  | c :: cs =>
    if c = '-' then -(atoiDigits cs 0 : Int)
    else if c = '+' then (atoiDigits cs 0 : Int)
    else (atoiDigits (c :: cs) 0 : Int)

/-- C `atoi`: value of the longest numeric prefix after optional whitespace
and sign; 0 when there is none. -/
def atoi (s : String) : Int :=
  atoiList (dropSpaces s.data)

/-- The digit-free criterion on a whitespace-stripped character list. -/
def nonNumericList : List Char → Bool
  | [] => true
  | [c] => if c = '-' ∨ c = '+' then true else !c.isDigit
  | c :: d :: _ => if c = '-' ∨ c = '+' then !d.isDigit else !c.isDigit

/-- A string on which `atoi` finds no digits at all: after whitespace and an
optional sign the next character (if any) is not a decimal digit. -/
def nonNumeric (s : String) : Bool :=
  nonNumericList (dropSpaces s.data)

theorem atoiDigits_not_digit (c : Char) (cs : List Char) (acc : Nat)
    (h : c.isDigit = false) : atoiDigits (c :: cs) acc = acc := by
  simp [atoiDigits, h]

/-- A non-numeric string converts to 0 under `atoi`. -/
theorem atoi_eq_zero_of_nonNumeric (s : String) (h : nonNumeric s = true) :
    atoi s = 0 := by
  unfold atoi
  unfold nonNumeric at h
  rcases hd : dropSpaces s.data with _ | ⟨c, cs⟩
  · simp [atoiList]
  · rw [hd] at h
    simp only [atoiList]
    by_cases hsign : c = '-' ∨ c = '+'
    · rcases cs with _ | ⟨d, ds⟩
      · rcases hsign with h1 | h1 <;> simp [h1, atoiDigits]
      · simp only [nonNumericList, if_pos hsign] at h
        simp only [Bool.not_eq_true'] at h
        rcases hsign with h1 | h1 <;>
          simp [h1, atoiDigits_not_digit d ds 0 h]
    · push_neg at hsign
      rcases cs with _ | ⟨d, ds⟩ <;>
      · simp only [nonNumericList, if_neg (show ¬(c = '-' ∨ c = '+') by
          simp [hsign.1, hsign.2])] at h
        simp only [Bool.not_eq_true'] at h
        simp [hsign.1, hsign.2, atoiDigits_not_digit c _ 0 h]

/-! ## Experiment configuration

`ghz_20q.cpp` main, lines 46-62: with fewer than two arguments after the
program name it prints usage and returns 1; otherwise `num_qubits`, the
backend name and the optional shot count (default 1024) are read, and
`num_qubits` outside [2, 127] prints an error and returns 1. Both failure
exits happen before any circuit is built or any service connection is made,
so they are modelled as `none`. The shot count is converted with `atoi` and
is never validated. -/

/-- The configuration record of the N-qubit program: `num_qubits`,
`backend_name`, `num_shots` as read in `ghz_20q.cpp` lines 54-56. -/
structure GhzConfig where
  num_qubits : Int
  backend_name : String
  num_shots : Int
deriving DecidableEq

/-- Argument handling of `ghz_20q.cpp` main (lines 46-62) over the argument
list after the program name. `none` models the program exiting with status 1
(usage or qubit-range error) before any circuit construction or remote
interaction. -/
def ghzParseArgs (args : List String) : Option GhzConfig :=
  match args with
  | q :: b :: rest =>
    let num_qubits := atoi q
    let num_shots := match rest with
      | s :: _ => atoi s
      | [] => 1024
    if num_qubits < 2 ∨ 127 < num_qubits then none
    else some ⟨num_qubits, b, num_shots⟩
  | _ => none

/-- The configuration record of the fixed 2-qubit Bell programs:
`backend_name` and `num_shots`. -/
structure BellConfig where
  backend_name : String
  num_shots : Int
deriving DecidableEq

/-- Argument handling of the C Bell program (`bell_state_c.c` lines 17-27)
over the argument list after the program name: total, with built-in default
backend "ibm_fez" and default shot count 1024; an argument beyond the second
is ignored. -/
def bellCArgs (args : List String) : BellConfig :=
  let backend_name := match args with
    | b :: _ => b
    | [] => "ibm_fez"
  let num_shots := match args with
    | _ :: s :: _ => atoi s
    | _ => 1024
  ⟨backend_name, num_shots⟩

/-- Argument handling of the C++ Bell program (`bell_state_c.c` second part,
lines 225-236): same shape, built-in default backend "ibm_torino". -/
def bellCppArgs (args : List String) : BellConfig :=
  let backend_name := match args with
    | b :: _ => b
    | [] => "ibm_torino"
  let num_shots := match args with
    | _ :: s :: _ => atoi s
    | _ => 1024
  ⟨backend_name, num_shots⟩

/-! ## The C Bell program's aggregation

`bell_state_c.c` lines 153-173: a four-entry counts array indexed by the
sample value; a sample is counted only when its parsed value lies in [0, 4);
anything else is skipped and the loop continues. Each sample is modelled by
the `Int` that `strtol(sample, NULL, 0)` returns for it (samples the SDK
returns as NULL are skipped by the source before parsing and are not
modelled). The report divides by `num_samples`, the number of samples
actually returned, not by the configured `num_shots`. -/

/-- The `counts[4]` array of the C Bell program. -/
structure BellCounts where
  count0 : Nat
  count1 : Nat
  count2 : Nat
  count3 : Nat
deriving DecidableEq

/-- One iteration of the counting loop, `bell_state_c.c` lines 157-167. -/
def bellStep (b : BellCounts) (value : Int) : BellCounts :=
  if 0 ≤ value ∧ value < 4 then
    if value = 0 then { b with count0 := b.count0 + 1 }
    else if value = 1 then { b with count1 := b.count1 + 1 }
    else if value = 2 then { b with count2 := b.count2 + 1 }
    else { b with count3 := b.count3 + 1 }
  else b

/-- The counting loop over the whole sample sequence. -/
def bellAggregate (samples : List Int) : BellCounts :=
  samples.foldl bellStep ⟨0, 0, 0, 0⟩

/-- Sum of the four counters. -/
def bellTotal (b : BellCounts) : Nat :=
  b.count0 + b.count1 + b.count2 + b.count3

/-- The four outcome lines of the C Bell program (lines 170-173): label, raw
count, and percentage `100.0 * counts[i] / num_samples` where `num_samples`
is the length of the returned sample sequence. -/
def bellReport (samples : List Int) : List (String × Nat × ℚ) :=
  let b := bellAggregate samples
  let num_samples : ℚ := (samples.length : ℚ)
  [("00", b.count0, 100 * (b.count0 : ℚ) / num_samples),
   ("01", b.count1, 100 * (b.count1 : ℚ) / num_samples),
   ("10", b.count2, 100 * (b.count2 : ℚ) / num_samples),
   ("11", b.count3, 100 * (b.count3 : ℚ) / num_samples)]

/-- The outcome lines of the C++ Bell program (`bell_state_c.c` lines
289-294): every entry of the counts map, with percentage
`100.0 * c.second / num_shots` over the configured shot count. -/
def bellCppReport (num_shots : Int) (counts : List (String × Nat)) :
    List (String × Nat × ℚ) :=
  counts.map (fun c => (c.1, c.2, 100 * (c.2 : ℚ) / (num_shots : ℚ)))

/-! ## The N-qubit program's classification and report

`ghz_20q.cpp` lines 133-175. Reference patterns: the bitstrings of
`num_qubits` zeros and ones (lines 139-140) and the hexadecimal key
`"0x" << std::hex << ((1ULL << num_qubits) - 1)` (lines 144-146). The shift
is performed on the 64-bit `unsigned long long`; for `num_qubits ≥ 64` it is
undefined behaviour in C++, modelled here as the unsigned wrap-around value
`(1 <<< n) % 2 ^ 64` (so the subtraction also wraps modulo `2 ^ 64`). Either
way the stored reference is a 64-bit quantity. The classification loop
(lines 148-155) assigns the all-zeros and all-ones counters and accumulates
the `other` counter; detail printing (lines 157-163) and the summary block
(lines 166-175) divide by the configured `num_shots`. -/

/-- The `all_zeros` reference bitstring, `ghz_20q.cpp` line 139. -/
def all_zeros (num_qubits : Nat) : String :=
  String.mk (List.replicate num_qubits '0')

/-- The `all_ones` reference bitstring, `ghz_20q.cpp` line 140. -/
def all_ones (num_qubits : Nat) : String :=
  String.mk (List.replicate num_qubits '1')

/-- The value `(1ULL << num_qubits) - 1` computed in 64-bit unsigned
arithmetic, `ghz_20q.cpp` line 145 (shift counts of 64 and more are undefined
behaviour in C++ and are modelled modulo `2 ^ 64`). -/
def hexOnesVal (num_qubits : Nat) : Nat :=
  ((1 <<< num_qubits) % 2 ^ 64 + (2 ^ 64 - 1)) % 2 ^ 64

/-- Lowercase hexadecimal rendering as `std::hex` produces for an unsigned
value: no leading zeros, a single `0` for zero. -/
def hexStr (v : Nat) : String :=
  String.mk (Nat.toDigits 16 v)

/-- The `hex_ones_str` reference key, `ghz_20q.cpp` lines 144-146. -/
def hex_ones_str (num_qubits : Nat) : String :=
  "0x" ++ hexStr (hexOnesVal num_qubits)

/-- The condition of the all-zeros branch, `ghz_20q.cpp` line 149. -/
def IsZerosKey (num_qubits : Nat) (key : String) : Prop :=
  key = all_zeros num_qubits ∨ key = "0x0" ∨ key = "0"

instance (num_qubits : Nat) (key : String) :
    Decidable (IsZerosKey num_qubits key) := by
  unfold IsZerosKey
  infer_instance

/-- The condition under which the all-ones branch (line 151) runs: its guard
holds and the all-zeros guard before it does not. -/
def IsOnesKey (num_qubits : Nat) (key : String) : Prop :=
  ¬IsZerosKey num_qubits key ∧
    (key = all_ones num_qubits ∨ key = hex_ones_str num_qubits)

instance (num_qubits : Nat) (key : String) :
    Decidable (IsOnesKey num_qubits key) := by
  unfold IsOnesKey
  infer_instance

/-- The condition under which the final `else` (line 153) runs. -/
def IsOtherKey (num_qubits : Nat) (key : String) : Prop :=
  ¬IsZerosKey num_qubits key ∧
    ¬(key = all_ones num_qubits ∨ key = hex_ones_str num_qubits)

instance (num_qubits : Nat) (key : String) :
    Decidable (IsOtherKey num_qubits key) := by
  unfold IsOtherKey
  infer_instance

/-- The three counters `count_all_zeros`, `count_all_ones`, `count_other` of
`ghz_20q.cpp` lines 134-136. -/
structure GhzSummary where
  count_all_zeros : Nat
  count_all_ones : Nat
  count_other : Nat
deriving DecidableEq

/-- One iteration of the classification loop, `ghz_20q.cpp` lines 148-155:
the first two branches assign (`=`), the third accumulates (`+=`). -/
def ghzStep (num_qubits : Nat) (s : GhzSummary) (c : String × Nat) :
    GhzSummary :=
  if IsZerosKey num_qubits c.1 then
    { s with count_all_zeros := c.2 }
  else if c.1 = all_ones num_qubits ∨ c.1 = hex_ones_str num_qubits then
    { s with count_all_ones := c.2 }
  else
    { s with count_other := s.count_other + c.2 }

/-- The classification loop over the whole counts map, starting from the
zero-initialised counters. -/
def ghzClassify (num_qubits : Nat) (counts : List (String × Nat)) :
    GhzSummary :=
  counts.foldl (ghzStep num_qubits) ⟨0, 0, 0⟩

/-- One line of the printed measurement report of the N-qubit program. -/
inductive ReportLine where
  | detail (key : String) (count : Nat) (percentage : ℚ)
  | allZerosLine (count : Nat) (percentage : ℚ)
  | allOnesLine (count : Nat) (percentage : ℚ)
  | otherLine (count : Nat) (percentage : ℚ)
deriving DecidableEq

/-- The percentage formula of the N-qubit program,
`100.0 * count / num_shots` (lines 158, 169, 172, 175). -/
def pct (num_shots : Int) (count : Nat) : ℚ :=
  100 * (count : ℚ) / (num_shots : ℚ)

/-- The raw count a report line shows. -/
def lineCount : ReportLine → Nat
  | .detail _ c _ => c
  | .allZerosLine c _ => c
  | .allOnesLine c _ => c
  | .otherLine c _ => c

/-- The percentage a report line shows. -/
def linePct : ReportLine → ℚ
  | .detail _ _ p => p
  | .allZerosLine _ p => p
  | .allOnesLine _ p => p
  | .otherLine _ p => p

/-- The measurement report of the N-qubit program, `ghz_20q.cpp` lines
148-175: one detail line per counts entry whose percentage exceeds 1.0, in
map order, followed by the three summary lines, which are printed
unconditionally. Faithful for every nonzero `num_shots`; at `num_shots = 0`
the program's `double` division gives infinity for a nonzero count, which
passes the 1.0 threshold, while `pct`'s rational division by zero is 0, so
statements at shot count 0 are confined to inputs with no nonzero-count
entries, where both sides print no detail line. -/
def ghzReport (num_qubits : Nat) (num_shots : Int)
    (counts : List (String × Nat)) : List ReportLine :=
  let s := ghzClassify num_qubits counts
  (counts.filter (fun c => decide (1 < pct num_shots c.2))).map
      (fun c => ReportLine.detail c.1 c.2 (pct num_shots c.2)) ++
    [ReportLine.allZerosLine s.count_all_zeros (pct num_shots s.count_all_zeros),
     ReportLine.allOnesLine s.count_all_ones (pct num_shots s.count_all_ones),
     ReportLine.otherLine s.count_other (pct num_shots s.count_other)]

/-! ## Lemmas about the C Bell counting loop -/

theorem bellStep_invalid (b : BellCounts) (value : Int)
    (h : ¬(0 ≤ value ∧ value < 4)) : bellStep b value = b := by
  unfold bellStep
  rw [if_neg h]

theorem bellTotal_step (b : BellCounts) (value : Int) :
    bellTotal (bellStep b value) =
      bellTotal b + if 0 ≤ value ∧ value < 4 then 1 else 0 := by
  unfold bellStep bellTotal
  split_ifs <;> simp <;> omega

/-- Each processed sample adds one to the counter sum exactly when its value
is in range; out-of-range samples add nothing. -/
theorem bellTotal_foldl (samples : List Int) : ∀ b : BellCounts,
    bellTotal (List.foldl bellStep b samples) =
      bellTotal b + samples.countP (fun v => decide (0 ≤ v ∧ v < 4)) := by
  induction samples with
  | nil => intro b; simp
  | cons v vs ih =>
    intro b
    simp only [List.foldl_cons, List.countP_cons, bellTotal_step, ih]
    by_cases h : 0 ≤ v ∧ v < 4 <;> simp [h] <;> omega

/-! ## Lemmas about the N-qubit classification loop -/

theorem ghzStep_of_zeros (num_qubits : Nat) (s : GhzSummary) (c : String × Nat)
    (h : IsZerosKey num_qubits c.1) :
    ghzStep num_qubits s c = { s with count_all_zeros := c.2 } := by
  unfold ghzStep
  rw [if_pos h]

theorem ghzStep_of_ones (num_qubits : Nat) (s : GhzSummary) (c : String × Nat)
    (h : IsOnesKey num_qubits c.1) :
    ghzStep num_qubits s c = { s with count_all_ones := c.2 } := by
  unfold ghzStep
  rw [if_neg h.1, if_pos h.2]

theorem ghzStep_of_other (num_qubits : Nat) (s : GhzSummary) (c : String × Nat)
    (h : IsOtherKey num_qubits c.1) :
    ghzStep num_qubits s c = { s with count_other := s.count_other + c.2 } := by
  unfold ghzStep
  rw [if_neg h.1, if_neg h.2]

theorem ghzStep_zeros_of_not (num_qubits : Nat) (s : GhzSummary)
    (c : String × Nat) (h : ¬IsZerosKey num_qubits c.1) :
    (ghzStep num_qubits s c).count_all_zeros = s.count_all_zeros := by
  unfold ghzStep
  rw [if_neg h]
  split <;> rfl

theorem ghzStep_ones_of_not (num_qubits : Nat) (s : GhzSummary)
    (c : String × Nat) (h : ¬IsOnesKey num_qubits c.1) :
    (ghzStep num_qubits s c).count_all_ones = s.count_all_ones := by
  unfold ghzStep
  by_cases hz : IsZerosKey num_qubits c.1
  · rw [if_pos hz]
  · rw [if_neg hz, if_neg (fun hp => h ⟨hz, hp⟩)]

/-- Sum of the counts of the entries the all-zeros branch would take. -/
def zerosMatched (num_qubits : Nat) (counts : List (String × Nat)) : Nat :=
  ((counts.filter (fun c => decide (IsZerosKey num_qubits c.1))).map
    Prod.snd).sum

/-- Sum of the counts of the entries the all-ones branch would take. -/
def onesMatched (num_qubits : Nat) (counts : List (String × Nat)) : Nat :=
  ((counts.filter (fun c => decide (IsOnesKey num_qubits c.1))).map
    Prod.snd).sum

/-- Sum of the counts of the entries the final `else` branch takes. -/
def otherMatched (num_qubits : Nat) (counts : List (String × Nat)) : Nat :=
  ((counts.filter (fun c => decide (IsOtherKey num_qubits c.1))).map
    Prod.snd).sum

theorem foldl_ghzStep_other (num_qubits : Nat) (counts : List (String × Nat)) :
    ∀ s : GhzSummary,
      (counts.foldl (ghzStep num_qubits) s).count_other =
        s.count_other + otherMatched num_qubits counts := by
  induction counts with
  | nil => intro s; simp [otherMatched]
  | cons c cs ih =>
    intro s
    rw [List.foldl_cons]
    by_cases hz : IsZerosKey num_qubits c.1
    · rw [ghzStep_of_zeros num_qubits s c hz, ih _]
      unfold otherMatched
      rw [List.filter_cons_of_neg
        (p := fun c => decide (IsOtherKey num_qubits c.1)) (a := c) (by
        simp only [decide_eq_true_eq]
        exact fun ho => ho.1 hz)]
    · by_cases hp : c.1 = all_ones num_qubits ∨ c.1 = hex_ones_str num_qubits
      · rw [ghzStep_of_ones num_qubits s c ⟨hz, hp⟩, ih _]
        unfold otherMatched
        rw [List.filter_cons_of_neg
          (p := fun c => decide (IsOtherKey num_qubits c.1)) (a := c) (by
          simp only [decide_eq_true_eq]
          exact fun ho => ho.2 hp)]
      · rw [ghzStep_of_other num_qubits s c ⟨hz, hp⟩, ih _]
        unfold otherMatched
        rw [List.filter_cons_of_pos
          (p := fun c => decide (IsOtherKey num_qubits c.1)) (a := c)
          (decide_eq_true (show IsOtherKey num_qubits c.1 from ⟨hz, hp⟩))]
        simp only [List.map_cons, List.sum_cons]
        omega

theorem foldl_ghzStep_zeros_stable (num_qubits : Nat)
    (counts : List (String × Nat)) : ∀ s : GhzSummary,
    counts.countP (fun c => decide (IsZerosKey num_qubits c.1)) = 0 →
      (counts.foldl (ghzStep num_qubits) s).count_all_zeros =
        s.count_all_zeros := by
  induction counts with
  | nil => intro s _; rfl
  | cons c cs ih =>
    intro s h
    simp only [List.countP_cons] at h
    have hz : ¬IsZerosKey num_qubits c.1 := by
      intro hz
      rw [decide_eq_true hz] at h
      simp at h
    have hcs : cs.countP (fun c => decide (IsZerosKey num_qubits c.1)) = 0 := by
      omega
    rw [List.foldl_cons, ih _ hcs, ghzStep_zeros_of_not num_qubits s c hz]

theorem foldl_ghzStep_ones_stable (num_qubits : Nat)
    (counts : List (String × Nat)) : ∀ s : GhzSummary,
    counts.countP (fun c => decide (IsOnesKey num_qubits c.1)) = 0 →
      (counts.foldl (ghzStep num_qubits) s).count_all_ones =
        s.count_all_ones := by
  induction counts with
  | nil => intro s _; rfl
  | cons c cs ih =>
    intro s h
    simp only [List.countP_cons] at h
    have ho : ¬IsOnesKey num_qubits c.1 := by
      intro ho
      rw [decide_eq_true ho] at h
      simp at h
    have hcs : cs.countP (fun c => decide (IsOnesKey num_qubits c.1)) = 0 := by
      omega
    rw [List.foldl_cons, ih _ hcs, ghzStep_ones_of_not num_qubits s c ho]

theorem zerosMatched_eq_zero (num_qubits : Nat) (counts : List (String × Nat))
    (h : counts.countP (fun c => decide (IsZerosKey num_qubits c.1)) = 0) :
    zerosMatched num_qubits counts = 0 := by
  unfold zerosMatched
  rw [List.countP_eq_zero.mp h |> List.filter_eq_nil_iff.mpr]
  rfl

theorem onesMatched_eq_zero (num_qubits : Nat) (counts : List (String × Nat))
    (h : counts.countP (fun c => decide (IsOnesKey num_qubits c.1)) = 0) :
    onesMatched num_qubits counts = 0 := by
  unfold onesMatched
  rw [List.countP_eq_zero.mp h |> List.filter_eq_nil_iff.mpr]
  rfl

theorem foldl_ghzStep_zeros (num_qubits : Nat) (counts : List (String × Nat)) :
    ∀ s : GhzSummary,
    counts.countP (fun c => decide (IsZerosKey num_qubits c.1)) ≤ 1 →
      (counts.foldl (ghzStep num_qubits) s).count_all_zeros =
        if counts.countP (fun c => decide (IsZerosKey num_qubits c.1)) = 0 then
          s.count_all_zeros
        else zerosMatched num_qubits counts := by
  induction counts with
  | nil => intro s _; simp
  | cons c cs ih =>
    intro s h
    rw [List.foldl_cons]
    by_cases hz : IsZerosKey num_qubits c.1
    · have hcnt : (c :: cs).countP (fun c => decide (IsZerosKey num_qubits c.1))
          = cs.countP (fun c => decide (IsZerosKey num_qubits c.1)) + 1 := by
        simp [List.countP_cons, decide_eq_true hz]
      have hcs : cs.countP (fun c => decide (IsZerosKey num_qubits c.1)) = 0 := by
        rw [hcnt] at h
        omega
      rw [ghzStep_of_zeros num_qubits s c hz,
        foldl_ghzStep_zeros_stable num_qubits cs _ hcs, hcnt, hcs]
      simp only [if_neg (Nat.one_ne_zero)]
      unfold zerosMatched
      rw [List.filter_cons_of_pos
        (p := fun c => decide (IsZerosKey num_qubits c.1)) (a := c)
        (decide_eq_true hz)]
      rw [show cs.filter (fun c => decide (IsZerosKey num_qubits c.1)) = [] from
        List.filter_eq_nil_iff.mpr (List.countP_eq_zero.mp hcs)]
      simp
    · have hcnt : (c :: cs).countP (fun c => decide (IsZerosKey num_qubits c.1))
          = cs.countP (fun c => decide (IsZerosKey num_qubits c.1)) := by
        simp [List.countP_cons, decide_eq_false hz]
      have hkeep : (ghzStep num_qubits s c).count_all_zeros =
          s.count_all_zeros := ghzStep_zeros_of_not num_qubits s c hz
      rw [hcnt] at h ⊢
      rw [ih _ h, hkeep]
      unfold zerosMatched
      rw [List.filter_cons_of_neg
        (p := fun c => decide (IsZerosKey num_qubits c.1)) (a := c) (by
        simp only [decide_eq_true_eq]
        exact hz)]

theorem foldl_ghzStep_ones (num_qubits : Nat) (counts : List (String × Nat)) :
    ∀ s : GhzSummary,
    counts.countP (fun c => decide (IsOnesKey num_qubits c.1)) ≤ 1 →
      (counts.foldl (ghzStep num_qubits) s).count_all_ones =
        if counts.countP (fun c => decide (IsOnesKey num_qubits c.1)) = 0 then
          s.count_all_ones
        else onesMatched num_qubits counts := by
  induction counts with
  | nil => intro s _; simp
  | cons c cs ih =>
    intro s h
    rw [List.foldl_cons]
    by_cases ho : IsOnesKey num_qubits c.1
    · have hcnt : (c :: cs).countP (fun c => decide (IsOnesKey num_qubits c.1))
          = cs.countP (fun c => decide (IsOnesKey num_qubits c.1)) + 1 := by
        simp [List.countP_cons, decide_eq_true ho]
      have hcs : cs.countP (fun c => decide (IsOnesKey num_qubits c.1)) = 0 := by
        rw [hcnt] at h
        omega
      rw [ghzStep_of_ones num_qubits s c ho,
        foldl_ghzStep_ones_stable num_qubits cs _ hcs, hcnt, hcs]
      simp only [if_neg (Nat.one_ne_zero)]
      unfold onesMatched
      rw [List.filter_cons_of_pos
        (p := fun c => decide (IsOnesKey num_qubits c.1)) (a := c)
        (decide_eq_true ho)]
      rw [show cs.filter (fun c => decide (IsOnesKey num_qubits c.1)) = [] from
        List.filter_eq_nil_iff.mpr (List.countP_eq_zero.mp hcs)]
      simp
    · have hcnt : (c :: cs).countP (fun c => decide (IsOnesKey num_qubits c.1))
          = cs.countP (fun c => decide (IsOnesKey num_qubits c.1)) := by
        simp [List.countP_cons, decide_eq_false ho]
      have hkeep : (ghzStep num_qubits s c).count_all_ones =
          s.count_all_ones := ghzStep_ones_of_not num_qubits s c ho
      rw [hcnt] at h ⊢
      rw [ih _ h, hkeep]
      unfold onesMatched
      rw [List.filter_cons_of_neg
        (p := fun c => decide (IsOnesKey num_qubits c.1)) (a := c) (by
        simp only [decide_eq_true_eq]
        exact ho)]

/-- The `other` counter of the classification equals the summed counts of the
entries that reach the final `else`. -/
theorem ghzClassify_other (num_qubits : Nat) (counts : List (String × Nat)) :
    (ghzClassify num_qubits counts).count_other =
      otherMatched num_qubits counts := by
  unfold ghzClassify
  rw [foldl_ghzStep_other num_qubits counts _]
  simp

/-- When at most one entry matches the all-zeros patterns, the all-zeros
counter equals the summed counts of the matching entries (0 or that single
entry's count). -/
theorem ghzClassify_zeros (num_qubits : Nat) (counts : List (String × Nat))
    (h : counts.countP (fun c => decide (IsZerosKey num_qubits c.1)) ≤ 1) :
    (ghzClassify num_qubits counts).count_all_zeros =
      zerosMatched num_qubits counts := by
  unfold ghzClassify
  rw [foldl_ghzStep_zeros num_qubits counts _ h]
  split
  next h0 => rw [zerosMatched_eq_zero num_qubits counts h0]
  next => rfl

/-- When at most one entry matches the all-ones patterns, the all-ones
counter equals the summed counts of the matching entries. -/
theorem ghzClassify_ones (num_qubits : Nat) (counts : List (String × Nat))
    (h : counts.countP (fun c => decide (IsOnesKey num_qubits c.1)) ≤ 1) :
    (ghzClassify num_qubits counts).count_all_ones =
      onesMatched num_qubits counts := by
  unfold ghzClassify
  rw [foldl_ghzStep_ones num_qubits counts _ h]
  split
  next h0 => rw [onesMatched_eq_zero num_qubits counts h0]
  next => rfl

/-- Every counts entry reaches exactly one branch, so the three matched sums
partition the total of the counts map. -/
theorem matched_partition (num_qubits : Nat) (counts : List (String × Nat)) :
    zerosMatched num_qubits counts + onesMatched num_qubits counts +
      otherMatched num_qubits counts = (counts.map Prod.snd).sum := by
  induction counts with
  | nil => rfl
  | cons c cs ih =>
    unfold zerosMatched onesMatched otherMatched at ih ⊢
    by_cases hz : IsZerosKey num_qubits c.1
    · rw [List.filter_cons_of_pos
          (p := fun c => decide (IsZerosKey num_qubits c.1)) (a := c)
          (decide_eq_true hz),
        List.filter_cons_of_neg
          (p := fun c => decide (IsOnesKey num_qubits c.1)) (a := c) (by
          simp only [decide_eq_true_eq]
          exact fun ho => ho.1 hz),
        List.filter_cons_of_neg
          (p := fun c => decide (IsOtherKey num_qubits c.1)) (a := c) (by
          simp only [decide_eq_true_eq]
          exact fun ho => ho.1 hz)]
      simp only [List.map_cons, List.sum_cons]
      omega
    · by_cases hp : c.1 = all_ones num_qubits ∨ c.1 = hex_ones_str num_qubits
      · rw [List.filter_cons_of_neg
            (p := fun c => decide (IsZerosKey num_qubits c.1)) (a := c) (by
            simp only [decide_eq_true_eq]
            exact hz),
          List.filter_cons_of_pos
            (p := fun c => decide (IsOnesKey num_qubits c.1)) (a := c)
            (decide_eq_true ⟨hz, hp⟩),
          List.filter_cons_of_neg
            (p := fun c => decide (IsOtherKey num_qubits c.1)) (a := c) (by
            simp only [decide_eq_true_eq]
            exact fun ho => ho.2 hp)]
        simp only [List.map_cons, List.sum_cons]
        omega
      · rw [List.filter_cons_of_neg
            (p := fun c => decide (IsZerosKey num_qubits c.1)) (a := c) (by
            simp only [decide_eq_true_eq]
            exact hz),
          List.filter_cons_of_neg
            (p := fun c => decide (IsOnesKey num_qubits c.1)) (a := c) (by
            simp only [decide_eq_true_eq]
            exact fun ho => hp ho.2),
          List.filter_cons_of_pos
            (p := fun c => decide (IsOtherKey num_qubits c.1)) (a := c)
            (decide_eq_true ⟨hz, hp⟩)]
        simp only [List.map_cons, List.sum_cons]
        omega

/-- Bucket sum of the classification: with at most one key matching the
all-zeros patterns and at most one matching the all-ones patterns, the three
counters sum to the total of the counts map. -/
theorem ghzClassify_bucket_sum (num_qubits : Nat)
    (counts : List (String × Nat))
    (hz : counts.countP (fun c => decide (IsZerosKey num_qubits c.1)) ≤ 1)
    (ho : counts.countP (fun c => decide (IsOnesKey num_qubits c.1)) ≤ 1) :
    (ghzClassify num_qubits counts).count_all_zeros +
      (ghzClassify num_qubits counts).count_all_ones +
      (ghzClassify num_qubits counts).count_other =
      (counts.map Prod.snd).sum := by
  rw [ghzClassify_zeros num_qubits counts hz, ghzClassify_ones num_qubits counts ho,
    ghzClassify_other num_qubits counts, matched_partition num_qubits counts]

/-- For qubit counts up to 63 the 64-bit computation of
`(1ULL << num_qubits) - 1` is exact. -/
theorem hexOnesVal_eq_of_le (num_qubits : Nat) (h : num_qubits ≤ 63) :
    hexOnesVal num_qubits = 2 ^ num_qubits - 1 := by
  unfold hexOnesVal
  rw [Nat.shiftLeft_eq, one_mul]
  have hlt : 2 ^ num_qubits < 2 ^ 64 :=
    Nat.pow_lt_pow_right (by norm_num) (by omega)
  have h1 : 1 ≤ 2 ^ num_qubits := Nat.one_le_two_pow
  rw [Nat.mod_eq_of_lt hlt]
  have : 2 ^ num_qubits + (2 ^ 64 - 1) = (2 ^ num_qubits - 1) + 2 ^ 64 := by
    omega
  rw [this, Nat.add_mod_right, Nat.mod_eq_of_lt (by omega)]

/-! ## Claim theorems -/

/-- C1: the all-ones reference value `(1ULL << num_qubits) - 1` equals
`2 ^ num_qubits - 1` exactly for qubit counts 2..63, but the program computes
it in 64-bit arithmetic, so at `num_qubits = 127` (and any count from 64 up)
the stored reference is a wrapped 64-bit value, not `2 ^ 127 - 1`; the
all-zeros reference patterns ("0x0" and "0", alongside the all-zeros
bitstring) do denote the value 0 for every qubit count. This contradicts the
claim that the key is exact up to 127 and the source's own comment
(`ghz_20q.cpp` line 143). -/
theorem hexOnes_reference_overflow :
    (∀ n : Nat, 2 ≤ n → n ≤ 63 → hexOnesVal n = 2 ^ n - 1) ∧
    hexOnesVal 127 = 2 ^ 64 - 1 ∧
    hexOnesVal 127 ≠ 2 ^ 127 - 1 ∧
    (∀ n : Nat, IsZerosKey n "0x0" ∧ IsZerosKey n "0") := by
  refine ⟨fun n _ h63 => hexOnesVal_eq_of_le n h63, by decide, by decide,
    fun n => ⟨Or.inr (Or.inl rfl), Or.inr (Or.inr rfl)⟩⟩

/-- C2 counterexample: in the N-qubit program a counts key holding the hex
encoding of the out-of-range value `2 ^ 2 = 4` is not rejected: its count
lands in the `other` summary bucket. -/
theorem ghz_out_of_range_in_other_cex :
    ghzClassify 2 [("0x4", 7)] = ⟨0, 0, 7⟩ ∧
    "0x4" = "0x" ++ hexStr (2 ^ 2) := by decide

/-- C2 amended: the 2-qubit C program skips a sample whose value is outside
[0, 4) — it is excluded from the counts array and every bucket while the
remaining samples are still processed — whereas the N-qubit program performs
no range check: any key that matches neither reference pattern, out of range
or not, is accumulated into the `other` bucket. -/
theorem sample_out_of_range_amended (value : Int) (rest : List Int)
    (h : value < 0 ∨ 4 ≤ value) (num_qubits : Nat) (k : String) (c : Nat)
    (cs : List (String × Nat)) (hk : IsOtherKey num_qubits k) :
    bellAggregate (value :: rest) = bellAggregate rest ∧
    (ghzClassify num_qubits ((k, c) :: cs)).count_other =
      c + (ghzClassify num_qubits cs).count_other := by
  constructor
  · unfold bellAggregate
    rw [List.foldl_cons, bellStep_invalid _ value (by omega)]
  · unfold ghzClassify
    rw [List.foldl_cons, ghzStep_of_other num_qubits _ (k, c) hk,
      foldl_ghzStep_other, foldl_ghzStep_other]
    simp

/-- C2 witness: a concrete instance of the amended statement. -/
theorem sample_out_of_range_amended_w :
    bellAggregate [4, 0, 3] = bellAggregate [0, 3] ∧
    (ghzClassify 2 [("0x4", 7), ("0x0", 5)]).count_other =
      7 + (ghzClassify 2 [("0x0", 5)]).count_other :=
  sample_out_of_range_amended 4 [0, 3] (by decide) 2 "0x4" 7 [("0x0", 5)]
    (by decide)

/-- C6 counterexample: a non-numeric shot-count argument is not rejected:
configuration parsing succeeds and stores shot count 0 (the `atoi` result);
no InvalidShotCount failure exists. -/
theorem shots_arg_unvalidated_cex :
    ghzParseArgs ["5", "ibm_fez", "abc"] = some ⟨5, "ibm_fez", 0⟩ ∧
    nonNumeric "abc" = true := by decide

/-- C6 amended: the shot-count argument defaults to 1024 when absent; when
present it is converted with `atoi` (non-numeric text yields 0, negative
values are kept) and stored without any validation. -/
theorem shots_arg_amended (q b s : String) (rest : List String)
    (h2 : 2 ≤ atoi q) (h127 : atoi q ≤ 127) :
    ghzParseArgs [q, b] = some ⟨atoi q, b, 1024⟩ ∧
    ghzParseArgs (q :: b :: s :: rest) = some ⟨atoi q, b, atoi s⟩ := by
  simp only [ghzParseArgs]
  rw [if_neg (by omega), if_neg (by omega)]
  exact ⟨rfl, rfl⟩

/-- C6 witness: a concrete instance of the amended statement. -/
theorem shots_arg_amended_w :
    ghzParseArgs ["20", "ibm_fez"] = some ⟨20, "ibm_fez", 1024⟩ ∧
    ghzParseArgs ["20", "ibm_fez", "2048"] = some ⟨20, "ibm_fez", 2048⟩ := by
  have h := shots_arg_amended "20" "ibm_fez" "2048" [] (by decide) (by decide)
  exact ⟨h.1.trans (by decide), h.2.trans (by decide)⟩

/-- C7: a qubit-count argument that is non-numeric (so `atoi` yields 0) or
whose `atoi` value lies outside [2, 127] makes the program exit before any
circuit is built or any remote request is made. -/
theorem invalid_qubit_count_rejected (q b : String) (rest : List String)
    (h : nonNumeric q = true ∨ atoi q < 2 ∨ 127 < atoi q) :
    ghzParseArgs (q :: b :: rest) = none := by
  have hrange : atoi q < 2 ∨ 127 < atoi q := by
    rcases h with h | h
    · left
      rw [atoi_eq_zero_of_nonNumeric q h]
      norm_num
    · exact h
  simp only [ghzParseArgs]
  rw [if_pos hrange]

/-- C7 witness: a concrete non-numeric qubit-count argument is rejected. -/
theorem invalid_qubit_count_rejected_w :
    ghzParseArgs ["abc", "ibm_fez"] = none :=
  invalid_qubit_count_rejected "abc" "ibm_fez" [] (Or.inl (by decide))

/-- C10: invoked with no command-line arguments, the fixed 2-qubit Bell
programs proceed (their argument handling is total, so there is no usage
failure): the C program with default backend "ibm_fez" and the C++ program
with default backend "ibm_torino", each with default shot count 1024. -/
theorem bell_defaults_no_usage_error :
    bellCArgs [] = ⟨"ibm_fez", 1024⟩ ∧
    bellCppArgs [] = ⟨"ibm_torino", 1024⟩ := by decide

/-- C4: the counter sum of the C Bell program equals the number of
in-range samples processed (out-of-range samples are excluded), and in the
N-qubit program the three summary buckets sum to the total of the counts
map whenever at most one key matches the all-zeros patterns and at most one
matches the all-ones patterns — which is the case for every histogram built
from a sample sequence, where distinct keys encode distinct values in one
encoding. -/
theorem histogram_sum_valid_samples (samples : List Int) (num_qubits : Nat)
    (counts : List (String × Nat))
    (hz : counts.countP (fun c => decide (IsZerosKey num_qubits c.1)) ≤ 1)
    (ho : counts.countP (fun c => decide (IsOnesKey num_qubits c.1)) ≤ 1) :
    bellTotal (bellAggregate samples) =
      samples.countP (fun v => decide (0 ≤ v ∧ v < 4)) ∧
    (ghzClassify num_qubits counts).count_all_zeros +
      (ghzClassify num_qubits counts).count_all_ones +
      (ghzClassify num_qubits counts).count_other =
      (counts.map Prod.snd).sum := by
  constructor
  · unfold bellAggregate
    rw [bellTotal_foldl]
    simp [bellTotal]
  · exact ghzClassify_bucket_sum num_qubits counts hz ho

/-- C4 witness: a concrete instance; three of the five Bell samples are in
range, and the three buckets of the 2-qubit histogram sum to its total. -/
theorem histogram_sum_valid_samples_w :
    bellTotal (bellAggregate [0, 3, 4, -1, 2]) = 3 ∧
    (ghzClassify 2 [("00", 518), ("11", 506), ("01", 2)]).count_all_zeros +
      (ghzClassify 2 [("00", 518), ("11", 506), ("01", 2)]).count_all_ones +
      (ghzClassify 2 [("00", 518), ("11", 506), ("01", 2)]).count_other
      = 1026 := by
  have h := histogram_sum_valid_samples [0, 3, 4, -1, 2] 2
    [("00", 518), ("11", 506), ("01", 2)] (by decide) (by decide)
  exact ⟨h.1.trans (by decide), h.2.trans (by decide)⟩

/-- C9 counterexample: at `num_qubits = 127` the lowercase hex string of
`2 ^ 127 - 1` is not the stored reference (which is the wrapped 64-bit
string "0xffffffffffffffff"), and a counts key holding that hex string is
classified into the `other` bucket, not all-ones. -/
theorem hex_key_classification_cex :
    ghzClassify 127 [("0x" ++ hexStr (2 ^ 127 - 1), 5)] = ⟨0, 0, 5⟩ ∧
    hex_ones_str 127 = "0xffffffffffffffff" ∧
    hex_ones_str 127 ≠ "0x" ++ hexStr (2 ^ 127 - 1) := by decide

/-- C9 amended: for qubit counts up to 63 the all-ones hex reference is the
lowercase hex string of `2 ^ num_qubits - 1` (for 64 and beyond it is the hex
string of the wrapped 64-bit value); keys "0x0" and "0" are classified
all-zeros exactly like the canonical bitstring; the all-zeros and all-ones
counters are assigned rather than accumulated, so when two keys match the
same reference pattern the bucket keeps only the count of the key iterated
last and the earlier count reaches no bucket. -/
theorem classification_assignment_amended (num_qubits : Nat)
    (h63 : num_qubits ≤ 63) :
    hex_ones_str num_qubits = "0x" ++ hexStr (2 ^ num_qubits - 1) ∧
    (∀ xs k c, IsZerosKey num_qubits k →
      (ghzClassify num_qubits (xs ++ [(k, c)])).count_all_zeros = c) ∧
    (∀ xs k c, IsOnesKey num_qubits k →
      (ghzClassify num_qubits (xs ++ [(k, c)])).count_all_ones = c) ∧
    (∀ k1 c1 k2 c2, IsZerosKey num_qubits k1 → IsZerosKey num_qubits k2 →
      ghzClassify num_qubits [(k1, c1), (k2, c2)] = ⟨c2, 0, 0⟩) ∧
    (∀ k1 c1 k2 c2, IsOnesKey num_qubits k1 → IsOnesKey num_qubits k2 →
      ghzClassify num_qubits [(k1, c1), (k2, c2)] = ⟨0, c2, 0⟩) ∧
    IsZerosKey num_qubits "0x0" ∧ IsZerosKey num_qubits "0" := by
  refine ⟨?_, ?_, ?_, ?_, ?_, Or.inr (Or.inl rfl), Or.inr (Or.inr rfl)⟩
  · unfold hex_ones_str
    rw [hexOnesVal_eq_of_le num_qubits h63]
  · intro xs k c hk
    unfold ghzClassify
    rw [List.foldl_append]
    simp only [List.foldl_cons, List.foldl_nil]
    rw [ghzStep_of_zeros num_qubits _ (k, c) hk]
  · intro xs k c hk
    unfold ghzClassify
    rw [List.foldl_append]
    simp only [List.foldl_cons, List.foldl_nil]
    rw [ghzStep_of_ones num_qubits _ (k, c) hk]
  · intro k1 c1 k2 c2 h1 h2
    unfold ghzClassify
    simp only [List.foldl_cons, List.foldl_nil]
    rw [ghzStep_of_zeros num_qubits _ (k1, c1) h1,
      ghzStep_of_zeros num_qubits _ (k2, c2) h2]
  · intro k1 c1 k2 c2 h1 h2
    unfold ghzClassify
    simp only [List.foldl_cons, List.foldl_nil]
    rw [ghzStep_of_ones num_qubits _ (k1, c1) h1,
      ghzStep_of_ones num_qubits _ (k2, c2) h2]

/-- C9 witness: a concrete instance at two qubits: the hex reference is
"0x3", and of two distinct all-zeros keys only the last one's count is
kept. -/
theorem classification_assignment_amended_w :
    hex_ones_str 2 = "0x" ++ hexStr (2 ^ 2 - 1) ∧
    ghzClassify 2 [("0x0", 3), ("0", 8)] = ⟨8, 0, 0⟩ := by
  have h := classification_assignment_amended 2 (by norm_num)
  exact ⟨h.1, h.2.2.2.1 "0x0" 3 "0" 8 (by decide) (by decide)⟩

/-- C8: a detail line for an observed outcome appears in the N-qubit report
exactly when the entry is in the counts map and its percentage of the
configured shot count exceeds 1, and the three summary lines (all-zeros,
all-ones, other) are always present with their counts and percentages. -/
theorem report_threshold_and_summary (num_qubits : Nat) (num_shots : Int)
    (counts : List (String × Nat)) (k : String) (c : Nat) :
    ((∃ p, ReportLine.detail k c p ∈ ghzReport num_qubits num_shots counts) ↔
      ((k, c) ∈ counts ∧ 1 < pct num_shots c)) ∧
    ReportLine.allZerosLine (ghzClassify num_qubits counts).count_all_zeros
        (pct num_shots (ghzClassify num_qubits counts).count_all_zeros) ∈
      ghzReport num_qubits num_shots counts ∧
    ReportLine.allOnesLine (ghzClassify num_qubits counts).count_all_ones
        (pct num_shots (ghzClassify num_qubits counts).count_all_ones) ∈
      ghzReport num_qubits num_shots counts ∧
    ReportLine.otherLine (ghzClassify num_qubits counts).count_other
        (pct num_shots (ghzClassify num_qubits counts).count_other) ∈
      ghzReport num_qubits num_shots counts := by
  refine ⟨⟨?_, ?_⟩, ?_, ?_, ?_⟩
  · rintro ⟨p, hp⟩
    unfold ghzReport at hp
    rcases List.mem_append.mp hp with hmem | hmem
    · obtain ⟨x, hx, heq⟩ := List.mem_map.mp hmem
      obtain ⟨hxc, hxp⟩ := List.mem_filter.mp hx
      injection heq with e1 e2 e3
      constructor
      · rw [← e1, ← e2]
        simpa using hxc
      · rw [← e2]
        exact of_decide_eq_true hxp
    · simp at hmem
  · rintro ⟨hmem, hpct⟩
    refine ⟨pct num_shots c, ?_⟩
    unfold ghzReport
    apply List.mem_append_left
    exact List.mem_map.mpr
      ⟨(k, c), List.mem_filter.mpr ⟨hmem, decide_eq_true hpct⟩, rfl⟩
  · unfold ghzReport
    apply List.mem_append_right
    simp
  · unfold ghzReport
    apply List.mem_append_right
    simp
  · unfold ghzReport
    apply List.mem_append_right
    simp

/-- C8 witness: in a concrete 2-qubit report at 1024 shots the outcome with
506 counts (49.4%) gets a detail line. -/
theorem report_threshold_and_summary_w :
    ∃ p, ReportLine.detail "11" 506 p ∈ ghzReport 2 1024 [("11", 506), ("01", 2)] :=
  (report_threshold_and_summary 2 1024 [("11", 506), ("01", 2)] "11" 506).1.mpr
    ⟨by decide, by norm_num [pct]⟩

/-- C3 counterexample: the C Bell program divides by the number of returned
samples, not the configured shot count. With the default configuration
(1024 shots) and only two returned samples, both measuring 0, the "00" line
shows 100%, where the claimed formula gives `100 * 2 / 1024`. -/
theorem bell_pct_denominator_cex :
    bellCArgs [] = ⟨"ibm_fez", 1024⟩ ∧
    bellReport [0, 0] = [("00", 2, 100), ("01", 0, 0), ("10", 0, 0), ("11", 0, 0)] ∧
    (100 : ℚ) ≠ 100 * 2 / 1024 := by
  refine ⟨by decide, ?_, by norm_num⟩
  norm_num [bellReport, bellAggregate, bellStep]

/-- C3 amended: the N-qubit program and the C++ Bell program compute every
percentage as `100.0 * count / num_shots` with the configured shot count,
so shortfalls remain visible there; the C Bell program instead divides by
`num_samples`, the number of samples actually returned, renormalizing away
any loss. -/
theorem pct_denominators_amended (num_qubits : Nat) (num_shots : Int)
    (counts : List (String × Nat)) (shots2 : Int)
    (counts2 : List (String × Nat)) (samples : List Int) :
    (∀ line ∈ ghzReport num_qubits num_shots counts,
      linePct line = pct num_shots (lineCount line)) ∧
    (∀ e ∈ bellCppReport shots2 counts2,
      e.2.2 = 100 * (e.2.1 : ℚ) / (shots2 : ℚ)) ∧
    (∀ e ∈ bellReport samples,
      e.2.2 = 100 * (e.2.1 : ℚ) / (samples.length : ℚ)) := by
  refine ⟨?_, ?_, ?_⟩
  · intro line hline
    unfold ghzReport at hline
    rcases List.mem_append.mp hline with hmem | hmem
    · obtain ⟨x, _, heq⟩ := List.mem_map.mp hmem
      rw [← heq]
      rfl
    · simp only [List.mem_cons, List.not_mem_nil, or_false] at hmem
      rcases hmem with rfl | rfl | rfl <;> rfl
  · intro e he
    obtain ⟨x, _, heq⟩ := List.mem_map.mp he
    rw [← heq]
  · intro e he
    simp only [bellReport, List.mem_cons, List.not_mem_nil, or_false] at he
    rcases he with rfl | rfl | rfl | rfl <;> rfl


/-- C5 counterexample: the N-qubit summarisation performs no shot-count
validation. Handed `num_shots = 0` with an empty counts map (the program's
no-samples case) it still produces the three-line summary report instead of
failing: the program performs the divisions `100.0 * 0 / 0` and prints each
bucket with count 0 and a not-a-number percentage. The percentage fields are
left existential because that not-a-number value has no rational
counterpart. No InvalidShotCount failure exists. (With a nonzero-count
entry the program's division yields infinity and it also prints that
entry's detail line, again without failing.) -/
theorem summarize_zero_shots_cex :
    ∃ p1 p2 p3 : ℚ, ghzReport 2 0 [] =
      [ReportLine.allZerosLine 0 p1, ReportLine.allOnesLine 0 p2,
       ReportLine.otherLine 0 p3] := by
  refine ⟨pct 0 0, pct 0 0, pct 0 0, ?_⟩
  simp [ghzReport, ghzClassify]

/-- C5 amended: the code never fails with InvalidShotCount; summarisation is
total. For the empty sample sequence and a positive configured shot count
the report consists of the three summary lines, each with count 0 and
percentage 0. -/
theorem empty_histogram_report_amended (num_qubits : Nat) (num_shots : Int)
    (_h : 0 < num_shots) :
    ghzReport num_qubits num_shots [] =
      [ReportLine.allZerosLine 0 0, ReportLine.allOnesLine 0 0,
       ReportLine.otherLine 0 0] := by
  have h0 : pct num_shots 0 = 0 := by
    norm_num [pct]
  simp [ghzReport, ghzClassify, h0]

/-- C5 witness: the empty report at the default 1024 shots. -/
theorem empty_histogram_report_amended_w :
    ghzReport 20 1024 [] =
      [ReportLine.allZerosLine 0 0, ReportLine.allOnesLine 0 0,
       ReportLine.otherLine 0 0] :=
  empty_histogram_report_amended 20 1024 (by norm_num)
